import Mathlib

/-!
Verification of the threshold-bucketed classification routine of the
notebook `notebooks/visualization/python-awips-WorkingWithSurfaceObs.ipynb`.

The authored logic of the repository is a short script:

* sentinel masking and unit conversion (notebook lines 204-206):
  `tair = np.array(obs['temperature'], dtype=float)`,
  `tair[tair == -9999.0] = 'nan'`, `tair = (tair*1.8)+32`;
* a bucketing loop over the threshold schedule (lines 213-231) that, for
  each level, copies the converted array and masks the out-of-bin entries
  with NaN, dispatching on `temp == max(levels)` and `temp == min(levels)`.

We embed the arrays as `List (Option ℚ)`: `none` models NaN ("undefined"),
`some v` a defined value.  NumPy's NaN comparison semantics (any comparison
with NaN is false, so a NaN entry is never selected by a boolean mask and
stays NaN) is modelled by `Option.bind`: a `none` entry passes through every
mask unchanged.  Rationals stand in for IEEE doubles; every constant in the
claims is exactly representable and no claim depends on rounding.
-/

namespace SurfaceObs

/-- The missing-value sentinel of the notebook, `-9999.0` (line 205). -/
def sentinel : ℚ := -9999

/-- Line 205, `tair[tair == -9999.0] = 'nan'`: every entry equal (by exact
value equality) to the sentinel becomes NaN (`none`); all others stay. -/
def maskSentinel (raw : List ℚ) : List (Option ℚ) :=
  raw.map fun c => if c = sentinel then none else some c

/-- Line 206, `tair = (tair*1.8)+32`: the arithmetic is applied elementwise
to the whole array; NaN entries stay NaN (`nan*1.8+32 = nan`). -/
def toFahrenheit (t : List (Option ℚ)) : List (Option ℚ) :=
  t.map fun o => o.map fun c => c * 1.8 + 32

/-- Lines 204-206 in source order: sentinel masking strictly before the
Celsius-to-Fahrenheit conversion. -/
def convert (raw : List ℚ) : List (Option ℚ) :=
  toFahrenheit (maskSentinel raw)

/-- `subtair[(subtair < c)] = 'nan'` (lines 220 and 226): entries with value
strictly below `c` become NaN; a NaN entry compares false and is untouched. -/
def maskBelow (c : ℚ) (t : List (Option ℚ)) : List (Option ℚ) :=
  t.map fun o => o.bind fun v => if v < c then none else some v

/-- `subtair[(subtair >= c)] = 'nan'` (lines 223 and 227): entries with value
at least `c` become NaN; a NaN entry compares false and is untouched. -/
def maskAtLeast (c : ℚ) (t : List (Option ℚ)) : List (Option ℚ) :=
  t.map fun o => o.bind fun v => if c ≤ v then none else some v

/-- Python's `max(levels)` (line 219); `max` of a nonempty list.  The `[]`
case is arbitrary (Python would raise on an empty list). -/
def listMax : List ℚ → ℚ
  | [] => 0
  | x :: xs => xs.foldl max x

/-- Python's `min(levels)` (line 222). -/
def listMin : List ℚ → ℚ
  | [] => 0
  | x :: xs => xs.foldl min x

/-- One iteration of the bucketing loop (lines 213-227) for level index `i`:
`temp = levels[i]`; if `temp == max(levels)` keep values `>= temp`; elif
`temp == min(levels)` keep values `< temp`; else keep values in
`[temp, levels[i+1])`.  The dispatch is by value equality with the maximum,
tested before equality with the minimum, exactly as in the source.
Out-of-range indices read the default `0` (the loop only uses in-range
indices; `runPass` below models the indexing errors faithfully). -/
def bucket (levels : List ℚ) (i : ℕ) (tair : List (Option ℚ)) : List (Option ℚ) :=
  let temp := levels.getD i 0
  if temp = listMax levels then
    maskBelow temp tair
  else if temp = listMin levels then
    maskAtLeast temp tair
  else
    maskAtLeast (levels.getD (i + 1) 0) (maskBelow temp tair)

/-- The body of one loop iteration with Python's indexing errors made
explicit: `levels[i]` and `levels[i+1]` raise `IndexError` when out of
range, modelled as `none`. -/
def bucketChecked (levels : List ℚ) (i : ℕ) (tair : List (Option ℚ)) :
    Option (List (Option ℚ)) :=
  match levels[i]? with
  | none => none
  | some temp =>
    if temp = listMax levels then
      some (maskBelow temp tair)
    else if temp = listMin levels then
      some (maskAtLeast temp tair)
    else
      levels[i + 1]?.map fun nxt => maskAtLeast nxt (maskBelow temp tair)

/-- The whole classification pass (lines 200-231) with every fallible step
modelled: convert the raw array, then for `i` in `range(len(levels))`
compute the bin and read `colors[i]` (an out-of-range `colors[i]` is
Python's `IndexError`, modelled as `none`).  The result is the list of
(filtered array, color) pairs handed to the renderer, or `none` if any
step raised.  There is no validation step of any kind before the loop:
this is a faithful transcription of the source, which checks nothing. -/
def runPass (levels : List ℚ) (colors : List String) (raw : List ℚ) :
    Option (List (List (Option ℚ) × String)) :=
  let tair := convert raw
  (List.range levels.length).foldl
    (fun acc i =>
      acc.bind fun bins =>
        (bucketChecked levels i tair).bind fun sub =>
          colors[i]?.map fun col => bins ++ [(sub, col)])
    (some [])

/-- The mutable state visible to the bucketing loop: the converted
temperature array, the coordinate arrays, and the bins produced so far.
`subtair = tair.copy()` (line 215) means each iteration mutates only its
own fresh copy; the embedding makes that explicit by deriving each bin
from the state's `tair` and writing only to `bins`. -/
structure PassState where
  tair : List (Option ℚ)
  lats : List ℚ
  lons : List ℚ
  bins : List (List (Option ℚ) × String)
  deriving Repr, DecidableEq

/-- One iteration of the loop acting on the pass state: compute the bin
for index `i` from a copy of the current `tair` and append it, paired with
`colors[i]`, to the accumulated bins.  No other field is written. -/
def passStep (levels : List ℚ) (colors : List String) (s : PassState) (i : ℕ) :
    PassState :=
  { s with bins := s.bins ++ [(bucket levels i s.tair, colors.getD i "")] }

/-- The loop of lines 213-231 as a fold of `passStep` over
`range(len(levels))`. -/
def runPassState (levels : List ℚ) (colors : List String) (s : PassState) :
    PassState :=
  (List.range levels.length).foldl (passStep levels colors) s

/-- The notebook's color list (line 148). -/
def colors : List String :=
  ["purple", "c", "royalblue", "darkgreen", "green", "y", "orange", "r"]

/-- The notebook's threshold schedule (line 152). -/
def levels : List ℚ :=
  [0, 10, 20, 30, 40, 50, 60, 70]

/-! ### Pointwise behaviour of the masking primitives -/

theorem maskBelow_getElem?_some {t : List (Option ℚ)} {j : ℕ} {v : ℚ}
    (hj : t[j]? = some (some v)) (c : ℚ) :
    (maskBelow c t)[j]? = some (if v < c then none else some v) := by
  simp [maskBelow, hj]

theorem maskBelow_getElem?_none {t : List (Option ℚ)} {j : ℕ}
    (hj : t[j]? = some none) (c : ℚ) :
    (maskBelow c t)[j]? = some none := by
  simp [maskBelow, hj]

theorem maskAtLeast_getElem?_some {t : List (Option ℚ)} {j : ℕ} {v : ℚ}
    (hj : t[j]? = some (some v)) (c : ℚ) :
    (maskAtLeast c t)[j]? = some (if c ≤ v then none else some v) := by
  simp [maskAtLeast, hj]

theorem maskAtLeast_getElem?_none {t : List (Option ℚ)} {j : ℕ}
    (hj : t[j]? = some none) (c : ℚ) :
    (maskAtLeast c t)[j]? = some none := by
  simp [maskAtLeast, hj]

theorem maskBelow_length (c : ℚ) (t : List (Option ℚ)) :
    (maskBelow c t).length = t.length := by
  simp [maskBelow]

theorem maskAtLeast_length (c : ℚ) (t : List (Option ℚ)) :
    (maskAtLeast c t).length = t.length := by
  simp [maskAtLeast]

/-! ### Facts about strictly increasing schedules, Python `max`/`min` -/

theorem getD_eq_getElem {l : List ℚ} {i : ℕ} (h : i < l.length) :
    l.getD i 0 = l[i] := by
  simp [List.getD_eq_getElem?_getD, List.getElem?_eq_getElem h]

theorem sorted_getD_lt {l : List ℚ} (h : l.Pairwise (· < ·)) {i j : ℕ}
    (hij : i < j) (hj : j < l.length) : l.getD i 0 < l.getD j 0 := by
  have hi : i < l.length := lt_trans hij hj
  rw [getD_eq_getElem hi, getD_eq_getElem hj]
  exact List.pairwise_iff_getElem.mp h i j hi hj hij

theorem sorted_getD_le {l : List ℚ} (h : l.Pairwise (· < ·)) {i j : ℕ}
    (hij : i ≤ j) (hj : j < l.length) : l.getD i 0 ≤ l.getD j 0 := by
  rcases Nat.lt_or_ge i j with hlt | hge
  · exact le_of_lt (sorted_getD_lt h hlt hj)
  · have : i = j := Nat.le_antisymm hij hge
    subst this
    exact le_refl _

theorem foldl_max_init_le : ∀ (xs : List ℚ) (a : ℚ), a ≤ xs.foldl max a
  | [], _ => le_refl _
  | x :: xs, a => le_trans (le_max_left a x) (foldl_max_init_le xs (max a x))

theorem foldl_max_le_of_mem :
    ∀ (xs : List ℚ) (a x : ℚ), x ∈ xs → x ≤ xs.foldl max a
  | [], _, _, h => absurd h (List.not_mem_nil _)
  | y :: ys, a, x, h => by
    rcases List.mem_cons.mp h with rfl | h'
    · exact le_trans (le_max_right a x) (foldl_max_init_le ys _)
    · exact foldl_max_le_of_mem ys (max a y) x h'

theorem foldl_max_mem :
    ∀ (xs : List ℚ) (a : ℚ), xs.foldl max a = a ∨ xs.foldl max a ∈ xs
  | [], _ => Or.inl rfl
  | x :: xs, a => by
    rcases foldl_max_mem xs (max a x) with h | h
    · rcases max_choice a x with he | he
      · exact Or.inl (by rw [List.foldl_cons, h, he])
      · exact Or.inr (by rw [List.foldl_cons, h, he]; exact List.mem_cons_self x xs)
    · exact Or.inr (List.mem_cons_of_mem x h)

theorem foldl_min_init_le : ∀ (xs : List ℚ) (a : ℚ), xs.foldl min a ≤ a
  | [], _ => le_refl _
  | x :: xs, a => le_trans (foldl_min_init_le xs (min a x)) (min_le_left a x)

theorem foldl_min_le_of_mem :
    ∀ (xs : List ℚ) (a x : ℚ), x ∈ xs → xs.foldl min a ≤ x
  | [], _, _, h => absurd h (List.not_mem_nil _)
  | y :: ys, a, x, h => by
    rcases List.mem_cons.mp h with rfl | h'
    · exact le_trans (foldl_min_init_le ys _) (min_le_right a x)
    · exact foldl_min_le_of_mem ys (min a y) x h'

theorem foldl_min_mem :
    ∀ (xs : List ℚ) (a : ℚ), xs.foldl min a = a ∨ xs.foldl min a ∈ xs
  | [], _ => Or.inl rfl
  | x :: xs, a => by
    rcases foldl_min_mem xs (min a x) with h | h
    · rcases min_choice a x with he | he
      · exact Or.inl (by rw [List.foldl_cons, h, he])
      · exact Or.inr (by rw [List.foldl_cons, h, he]; exact List.mem_cons_self x xs)
    · exact Or.inr (List.mem_cons_of_mem x h)

theorem le_listMax {x : ℚ} {l : List ℚ} (h : x ∈ l) : x ≤ listMax l := by
  cases l with
  | nil => exact absurd h (List.not_mem_nil _)
  | cons y ys =>
    rcases List.mem_cons.mp h with rfl | h'
    · exact foldl_max_init_le ys x
    · exact foldl_max_le_of_mem ys y x h'

theorem listMax_mem {l : List ℚ} (h : l ≠ []) : listMax l ∈ l := by
  cases l with
  | nil => exact absurd rfl h
  | cons y ys =>
    rcases foldl_max_mem ys y with h1 | h1
    · rw [listMax, h1]; exact List.mem_cons_self y ys
    · exact List.mem_cons_of_mem y (by rw [listMax]; exact h1)

theorem listMin_le {x : ℚ} {l : List ℚ} (h : x ∈ l) : listMin l ≤ x := by
  cases l with
  | nil => exact absurd h (List.not_mem_nil _)
  | cons y ys =>
    rcases List.mem_cons.mp h with rfl | h'
    · exact foldl_min_init_le ys x
    · exact foldl_min_le_of_mem ys y x h'

theorem listMin_mem {l : List ℚ} (h : l ≠ []) : listMin l ∈ l := by
  cases l with
  | nil => exact absurd rfl h
  | cons y ys =>
    rcases foldl_min_mem ys y with h1 | h1
    · rw [listMin, h1]; exact List.mem_cons_self y ys
    · exact List.mem_cons_of_mem y (by rw [listMin]; exact h1)

theorem listMax_eq_last {l : List ℚ} (h : l.Pairwise (· < ·)) (hne : l ≠ []) :
    listMax l = l.getD (l.length - 1) 0 := by
  have hlen : 0 < l.length := List.length_pos.mpr hne
  apply le_antisymm
  · obtain ⟨k, hk, he⟩ := List.mem_iff_getElem.mp (listMax_mem hne)
    rw [← he, ← getD_eq_getElem hk]
    exact sorted_getD_le h (by omega) (by omega)
  · apply le_listMax
    rw [getD_eq_getElem (by omega)]
    exact List.getElem_mem _

theorem listMin_eq_head {l : List ℚ} (h : l.Pairwise (· < ·)) (hne : l ≠ []) :
    listMin l = l.getD 0 0 := by
  have hlen : 0 < l.length := List.length_pos.mpr hne
  apply le_antisymm
  · apply listMin_le
    rw [getD_eq_getElem hlen]
    exact List.getElem_mem _
  · obtain ⟨k, hk, he⟩ := List.mem_iff_getElem.mp (listMin_mem hne)
    rw [← he, ← getD_eq_getElem hk]
    exact sorted_getD_le h (Nat.zero_le k) hk

theorem getD_ne_listMax {l : List ℚ} (h : l.Pairwise (· < ·)) {i : ℕ}
    (hi : i + 1 < l.length) : l.getD i 0 ≠ listMax l := by
  have hne : l ≠ [] := by
    intro he
    rw [he] at hi
    simp at hi
  rw [listMax_eq_last h hne]
  exact ne_of_lt (sorted_getD_lt h (by omega) (by omega))

theorem getD_ne_listMin {l : List ℚ} (h : l.Pairwise (· < ·)) {i : ℕ}
    (h0 : 0 < i) (hi : i < l.length) : l.getD i 0 ≠ listMin l := by
  have hne : l ≠ [] := by
    intro he
    rw [he] at hi
    simp at hi
  rw [listMin_eq_head h hne]
  exact (ne_of_lt (sorted_getD_lt h h0 hi)).symm

/-- For a strictly increasing schedule, which branch of the loop body fires
is determined by the position of the index: the last index takes the
maximum branch, index `0` the minimum branch, the rest the interior
branch. -/
theorem bucket_eq_of_sorted {l : List ℚ} (h : l.Pairwise (· < ·)) {i : ℕ}
    (hi : i < l.length) (tair : List (Option ℚ)) :
    bucket l i tair =
      if i = l.length - 1 then maskBelow (l.getD i 0) tair
      else if i = 0 then maskAtLeast (l.getD 0 0) tair
      else maskAtLeast (l.getD (i + 1) 0) (maskBelow (l.getD i 0) tair) := by
  have hne : l ≠ [] := by
    intro he
    rw [he] at hi
    simp at hi
  rcases Nat.lt_or_ge i (l.length - 1) with hlt | hge
  · have hmax : ¬ l.getD i 0 = listMax l := getD_ne_listMax h (by omega)
    have hine : ¬ i = l.length - 1 := by omega
    rcases Nat.eq_zero_or_pos i with rfl | hpos
    · have hmin : l.getD 0 0 = listMin l := (listMin_eq_head h hne).symm
      simp only [bucket]
      rw [if_neg hmax, if_pos hmin, if_neg hine]
      simp
    · have hmin : ¬ l.getD i 0 = listMin l := getD_ne_listMin h hpos hi
      have hine0 : ¬ i = 0 := by omega
      simp only [bucket]
      rw [if_neg hmax, if_neg hmin, if_neg hine, if_neg hine0]
  · have hieq : i = l.length - 1 := by omega
    have hmax : l.getD i 0 = listMax l := by rw [listMax_eq_last h hne, hieq]
    simp only [bucket]
    rw [if_pos hmax, if_pos hieq]

/-- An undefined (NaN) entry stays undefined through every branch of the
loop body: a NaN never satisfies a comparison, so it is never rewritten and
never becomes defined. -/
theorem bucket_getElem?_none (lv : List ℚ) (i : ℕ) {t : List (Option ℚ)} {j : ℕ}
    (hj : t[j]? = some none) :
    (bucket lv i t)[j]? = some none := by
  simp only [bucket]
  split_ifs
  · exact maskBelow_getElem?_none hj _
  · exact maskAtLeast_getElem?_none hj _
  · exact maskAtLeast_getElem?_none (maskBelow_getElem?_none hj _) _

/-- Pointwise value of an interior bin on a defined entry: the two masks of
the `else` branch retain exactly the half-open interval
`[levels[i], levels[i+1])`. -/
theorem bucket_interior_getElem? {lv : List ℚ} (h : lv.Pairwise (· < ·)) {i : ℕ}
    (h0 : 0 < i) (hi : i + 1 < lv.length) {tair : List (Option ℚ)} {j : ℕ} {v : ℚ}
    (hj : tair[j]? = some (some v)) :
    (bucket lv i tair)[j]? =
      some (if lv.getD i 0 ≤ v ∧ v < lv.getD (i + 1) 0 then some v else none) := by
  have hb := bucket_eq_of_sorted h (show i < lv.length by omega) tair
  rw [if_neg (show ¬ i = lv.length - 1 by omega), if_neg (show ¬ i = 0 by omega)] at hb
  rw [hb]
  rcases lt_or_ge v (lv.getD i 0) with hlo | hlo
  · have h1 : (maskBelow (lv.getD i 0) tair)[j]? = some none := by
      rw [maskBelow_getElem?_some hj, if_pos hlo]
    rw [maskAtLeast_getElem?_none h1,
      if_neg (by intro hand; exact absurd hand.1 (not_le.mpr hlo))]
  · have h1 : (maskBelow (lv.getD i 0) tair)[j]? = some (some v) := by
      rw [maskBelow_getElem?_some hj, if_neg (not_lt.mpr hlo)]
    rw [maskAtLeast_getElem?_some h1]
    rcases lt_or_ge v (lv.getD (i + 1) 0) with hhi | hhi
    · rw [if_neg (not_le.mpr hhi), if_pos ⟨hlo, hhi⟩]
    · rw [if_pos hhi, if_neg (by intro hand; exact absurd hand.2 (not_lt.mpr hhi))]

/-! ### The claims -/

/-- C1: for a strictly increasing threshold schedule whose first and last
levels are distinct, the bottom bin retains a defined converted value `v`
iff `v < levels[0]`; in particular `v = levels[0]` is marked undefined in
the bottom bin, because the literal comparison of line 223 is
`value >= L_min -> undefined`. -/
theorem bottom_bin_excludes_boundary (lv : List ℚ) (h : lv.Pairwise (· < ·))
    (hlen : 2 ≤ lv.length) (tair : List (Option ℚ)) (j : ℕ) (v : ℚ)
    (hj : tair[j]? = some (some v)) :
    ((bucket lv 0 tair)[j]? = some (some v) ↔ v < lv.getD 0 0) ∧
    (v = lv.getD 0 0 → (bucket lv 0 tair)[j]? = some none) := by
  have hb := bucket_eq_of_sorted h (show 0 < lv.length by omega) tair
  have hb' : bucket lv 0 tair = maskAtLeast (lv.getD 0 0) tair := by
    rw [hb, if_neg (show ¬ (0 : ℕ) = lv.length - 1 by omega)]
    simp
  constructor
  · rw [hb', maskAtLeast_getElem?_some hj]
    rcases le_or_lt (lv.getD 0 0) v with hc | hc
    · rw [if_pos hc]
      constructor
      · intro hcontra
        exact absurd (Option.some.inj hcontra) (by simp)
      · intro hvlt
        exact absurd hvlt (not_lt.mpr hc)
    · rw [if_neg (not_le.mpr hc)]
      exact ⟨fun _ => hc, fun _ => rfl⟩
  · intro hv
    rw [hb', maskAtLeast_getElem?_some hj, if_pos (le_of_eq hv.symm)]

/-- C1 witness at a concrete input: schedule `[0, 10]`, value `-3` is
retained in the bottom bin (`-3 < 0`). -/
theorem bottom_bin_excludes_boundary_witness :
    ((bucket [0, 10] 0 ([some (-3)] : List (Option ℚ)))[0]? =
        some (some (-3 : ℚ)) ↔
      (-3 : ℚ) < ([0, 10] : List ℚ).getD 0 0) ∧
    ((-3 : ℚ) = ([0, 10] : List ℚ).getD 0 0 →
      (bucket [0, 10] 0 ([some (-3)] : List (Option ℚ)))[0]? = some none) :=
  bottom_bin_excludes_boundary [0, 10] (by decide) (by decide)
    ([some (-3)] : List (Option ℚ)) 0 (-3) (by decide)

/-- C2: conversion produces an array of equal length; every entry exactly
equal to the sentinel `-9999.0` is undefined, every other entry `c` equals
`c*1.8+32`, and because the masking of line 205 runs strictly before the
arithmetic of line 206, no entry of the output — in particular no entry
coming from a sentinel — is the finite converted image of the sentinel. -/
theorem conversion_masks_sentinel_before_arithmetic (raw : List ℚ) :
    (convert raw).length = raw.length ∧
    (∀ j, j < raw.length →
      (convert raw)[j]? =
        some (if raw.getD j 0 = sentinel then none
              else some (raw.getD j 0 * 1.8 + 32))) ∧
    (∀ (j : ℕ) (x : ℚ), (convert raw)[j]? = some (some x) →
      x ≠ sentinel * 1.8 + 32) := by
  refine ⟨by simp [convert, toFahrenheit, maskSentinel], ?_, ?_⟩
  · intro j hj
    have hr : raw[j]? = some raw[j] := List.getElem?_eq_getElem hj
    rw [getD_eq_getElem hj]
    simp only [convert, toFahrenheit, maskSentinel, List.getElem?_map, hr]
    by_cases hs : raw[j] = sentinel
    · rw [if_pos hs]
      simp [hs]
    · rw [if_neg hs]
      simp [hs]
  · intro j x hx
    simp only [convert, toFahrenheit, maskSentinel, List.getElem?_map] at hx
    cases hr : raw[j]? with
    | none => rw [hr] at hx; simp at hx
    | some c =>
      rw [hr] at hx
      simp only [Option.map_some'] at hx
      by_cases hs : c = sentinel
      · rw [if_pos hs] at hx
        simp at hx
      · rw [if_neg hs] at hx
        simp only [Option.map_some'] at hx
        have hxc : c * 1.8 + 32 = x := by
          have := Option.some.inj (Option.some.inj hx)
          exact this
        intro hcontra
        apply hs
        rw [hcontra] at hxc
        linarith

/-- C2 witness at a concrete input: `[-9999, 25]` converts to
`[undefined, 77]` (`25*1.8+32 = 77`). -/
theorem conversion_masks_sentinel_before_arithmetic_witness :
    (convert [-9999, 25])[0]? = some none ∧
    (convert [-9999, 25])[1]? = some (some 77) := by
  have h := conversion_masks_sentinel_before_arithmetic [-9999, 25]
  constructor
  · have h0 := h.2.1 0 (by norm_num)
    rw [h0]
    norm_num [sentinel]
  · have h1 := h.2.1 1 (by norm_num)
    rw [h1]
    norm_num [sentinel]

/-- C4: for a strictly increasing schedule, the bin of an interior level
`levels[i]` retains a defined converted value `v` iff
`levels[i] <= v < levels[i+1]`; everything else is marked undefined. -/
theorem interior_bin_half_open (lv : List ℚ) (h : lv.Pairwise (· < ·)) (i : ℕ)
    (h0 : 0 < i) (hi : i + 1 < lv.length) (tair : List (Option ℚ)) (j : ℕ) (v : ℚ)
    (hj : tair[j]? = some (some v)) :
    (bucket lv i tair)[j]? =
      some (if lv.getD i 0 ≤ v ∧ v < lv.getD (i + 1) 0 then some v else none) :=
  bucket_interior_getElem? h h0 hi hj

/-- C4 witness at a concrete input: schedule `[0, 10, 20]`, value `15` is
retained in the interior bin for level `10`. -/
theorem interior_bin_half_open_witness :
    (bucket [0, 10, 20] 1 [some 15])[0]? =
      some (if ([0, 10, 20] : List ℚ).getD 1 0 ≤ 15 ∧
              (15 : ℚ) < ([0, 10, 20] : List ℚ).getD 2 0
            then some 15 else none) :=
  interior_bin_half_open [0, 10, 20] (by decide) 1 (by decide) (by decide)
    [some 15] 0 15 (by decide)

/-- C7: an entry equal to the sentinel in the raw array is undefined after
conversion and stays undefined in the filtered array of every bin, for
every schedule and every level index; the bucketing itself is a total
function (a comparison against NaN is simply false and never raises). -/
theorem sentinel_undefined_in_every_bin (lv : List ℚ) (i : ℕ) (raw : List ℚ)
    (j : ℕ) (hj : raw[j]? = some sentinel) :
    (convert raw)[j]? = some none ∧
    (bucket lv i (convert raw))[j]? = some none := by
  have hc : (convert raw)[j]? = some none := by
    simp [convert, toFahrenheit, maskSentinel, hj]
  exact ⟨hc, bucket_getElem?_none lv i hc⟩

/-- C7 witness at a concrete input: a sentinel entry is undefined in the
bottom bin of the schedule `[0, 10]`. -/
theorem sentinel_undefined_in_every_bin_witness :
    (convert [-9999])[0]? = some none ∧
    (bucket [0, 10] 0 (convert [-9999]))[0]? = some none :=
  sentinel_undefined_in_every_bin [0, 10] 0 [-9999] 0 (by decide)

/-- C8: the parallel-array invariant — conversion and every bucketing step
preserve the length of the source measurement array, for every schedule,
every level index and every input. -/
theorem parallel_array_invariant (lv : List ℚ) (i : ℕ) (raw : List ℚ) :
    (convert raw).length = raw.length ∧
    (bucket lv i (convert raw)).length = raw.length := by
  have hc : (convert raw).length = raw.length := by
    simp [convert, toFahrenheit, maskSentinel]
  refine ⟨hc, ?_⟩
  simp only [bucket]
  split_ifs <;> simp [maskBelow, maskAtLeast, hc]

/-- C10: a schedule with a single level `L` dispatches into the
maximum-level branch (the equality `temp == max(levels)` of line 219 is
tested before `temp == min(levels)` of line 222), so the single bin
retains exactly the values `v >= L` — the top-bin rule, not the bottom-bin
rule. -/
theorem single_level_uses_top_bin_rule (L : ℚ) (tair : List (Option ℚ)) (j : ℕ)
    (v : ℚ) (hj : tair[j]? = some (some v)) :
    (bucket [L] 0 tair)[j]? = some (if L ≤ v then some v else none) := by
  have hL : bucket [L] 0 tair = maskBelow L tair := by
    simp [bucket, listMax]
  rw [hL, maskBelow_getElem?_some hj]
  rcases le_or_lt L v with hc | hc
  · rw [if_neg (not_lt.mpr hc), if_pos hc]
  · rw [if_pos hc, if_neg (not_le.mpr hc)]

/-- C10 witness at a concrete input: with the singleton schedule `[10]` the
boundary value `10` itself is retained (`10 >= 10`), which the bottom-bin
rule would have discarded. -/
theorem single_level_uses_top_bin_rule_witness :
    (bucket [10] 0 [some 10])[0]? = some (some 10) := by
  have h := single_level_uses_top_bin_rule 10 [some 10] 0 10 (by decide)
  simpa using h

/-- C3: for a strictly increasing nonempty schedule, the bin of the last
(maximum) level retains a defined converted value `v` iff
`v >= levels[-1]` (the top bin is unbounded above), and every such `v` is
marked undefined in every other bin. -/
theorem top_bin_unbounded_above (lv : List ℚ) (h : lv.Pairwise (· < ·))
    (hne : lv ≠ []) (tair : List (Option ℚ)) (j : ℕ) (v : ℚ)
    (hj : tair[j]? = some (some v)) :
    ((bucket lv (lv.length - 1) tair)[j]? =
      some (if lv.getD (lv.length - 1) 0 ≤ v then some v else none)) ∧
    (lv.getD (lv.length - 1) 0 ≤ v →
      ∀ i, i + 1 < lv.length → (bucket lv i tair)[j]? = some none) := by
  have hlen : 0 < lv.length := List.length_pos.mpr hne
  constructor
  · have hb := bucket_eq_of_sorted h (show lv.length - 1 < lv.length by omega) tair
    rw [if_pos rfl] at hb
    rw [hb, maskBelow_getElem?_some hj]
    rcases le_or_lt (lv.getD (lv.length - 1) 0) v with hc | hc
    · rw [if_neg (not_lt.mpr hc), if_pos hc]
    · rw [if_pos hc, if_neg (not_le.mpr hc)]
  · intro hv i hi
    have hb := bucket_eq_of_sorted h (show i < lv.length by omega) tair
    rw [if_neg (show ¬ i = lv.length - 1 by omega)] at hb
    rcases Nat.eq_zero_or_pos i with rfl | hpos
    · rw [if_pos rfl] at hb
      rw [hb, maskAtLeast_getElem?_some hj,
        if_pos (le_trans (sorted_getD_le h (by omega) (by omega)) hv)]
    · rw [if_neg (show ¬ i = 0 by omega)] at hb
      have hvi : lv.getD i 0 ≤ v :=
        le_trans (sorted_getD_le h (by omega) (by omega)) hv
      have h1 : (maskBelow (lv.getD i 0) tair)[j]? = some (some v) := by
        rw [maskBelow_getElem?_some hj, if_neg (not_lt.mpr hvi)]
      have hvi1 : lv.getD (i + 1) 0 ≤ v :=
        le_trans (sorted_getD_le h (by omega) (by omega)) hv
      rw [hb, maskAtLeast_getElem?_some h1, if_pos hvi1]

/-- C3 witness at a concrete input: schedule `[0, 10]`, value `12` is
retained in the top bin and undefined in the bottom bin. -/
theorem top_bin_unbounded_above_witness :
    ((bucket [0, 10] 1 [some 12])[0]? = some (some (12 : ℚ))) ∧
    ((bucket [0, 10] 0 [some 12])[0]? = some none) := by
  have h := top_bin_unbounded_above [0, 10] (by decide) (by decide) [some 12] 0 12
    (by decide)
  exact ⟨by simpa using h.1, h.2 (by decide) 0 (by decide)⟩

/-- C5 counterexample: with the notebook's own schedule, the converted
value `5` satisfies `levels[0] <= 5 < levels[-1]` yet is marked undefined
in every interior bin (indices 1 through 6): the bottom bin retains only
values strictly below `levels[0]`, and the first interior bin starts at
`levels[1]`, so the whole interval `[levels[0], levels[1])` belongs to no
bin at all. -/
theorem interior_exclusivity_cex :
    (levels.getD 0 0 ≤ 5 ∧ (5 : ℚ) < levels.getD (levels.length - 1) 0) ∧
    (bucket levels 1 [some 5])[0]? = some none ∧
    (bucket levels 2 [some 5])[0]? = some none ∧
    (bucket levels 3 [some 5])[0]? = some none ∧
    (bucket levels 4 [some 5])[0]? = some none ∧
    (bucket levels 5 [some 5])[0]? = some none ∧
    (bucket levels 6 [some 5])[0]? = some none := by
  decide

/-- C5 amended: exclusivity holds from the second level up — for every
strictly increasing schedule with at least three levels and every defined
converted value `v` with `levels[1] <= v < levels[-1]`, `v` appears as
defined in exactly one interior bin. -/
theorem interior_bins_partition_from_second_level (lv : List ℚ)
    (h : lv.Pairwise (· < ·)) (hlen : 3 ≤ lv.length) (tair : List (Option ℚ))
    (j : ℕ) (v : ℚ) (hj : tair[j]? = some (some v))
    (hv1 : lv.getD 1 0 ≤ v) (hv2 : v < lv.getD (lv.length - 1) 0) :
    ∃! i, 0 < i ∧ i + 1 < lv.length ∧ (bucket lv i tair)[j]? = some (some v) := by
  classical
  obtain ⟨i, hi1, hibound, hpi, hnpi1⟩ :
      ∃ i, 1 ≤ i ∧ i + 1 < lv.length ∧ lv.getD i 0 ≤ v ∧ v < lv.getD (i + 1) 0 := by
    have h2 : 1 ≤ lv.length - 2 := by omega
    have hle : Nat.findGreatest (fun k => lv.getD k 0 ≤ v) (lv.length - 2) ≤
        lv.length - 2 :=
      Nat.findGreatest_le (P := fun k => lv.getD k 0 ≤ v) (lv.length - 2)
    have hge1 : 1 ≤ Nat.findGreatest (fun k => lv.getD k 0 ≤ v) (lv.length - 2) :=
      Nat.le_findGreatest h2 hv1
    have hspec :
        lv.getD (Nat.findGreatest (fun k => lv.getD k 0 ≤ v) (lv.length - 2)) 0 ≤ v :=
      Nat.findGreatest_spec (P := fun k => lv.getD k 0 ≤ v) h2 hv1
    refine ⟨Nat.findGreatest (fun k => lv.getD k 0 ≤ v) (lv.length - 2),
      hge1, by omega, hspec, ?_⟩
    by_cases hcase :
        Nat.findGreatest (fun k => lv.getD k 0 ≤ v) (lv.length - 2) + 1 ≤
          lv.length - 2
    · exact not_le.mp
        (Nat.findGreatest_is_greatest (P := fun k => lv.getD k 0 ≤ v)
          (Nat.lt_succ_self _) hcase)
    · have hge :
          Nat.findGreatest (fun k => lv.getD k 0 ≤ v) (lv.length - 2) + 1 =
            lv.length - 1 := by
        omega
      rw [hge]
      exact hv2
  refine ⟨i, ⟨by omega, hibound, ?_⟩, ?_⟩
  · rw [bucket_interior_getElem? h (by omega) hibound hj,
      if_pos ⟨hpi, hnpi1⟩]
  · rintro k ⟨hk0, hk1, hkv⟩
    rw [bucket_interior_getElem? h hk0 hk1 hj] at hkv
    by_cases hcond : lv.getD k 0 ≤ v ∧ v < lv.getD (k + 1) 0
    · rcases Nat.lt_trichotomy k i with hlt | heq | hgt
      · exfalso
        have hmono : lv.getD (k + 1) 0 ≤ lv.getD i 0 :=
          sorted_getD_le h (by omega) (by omega)
        exact absurd (le_trans hmono hpi) (not_le.mpr hcond.2)
      · exact heq
      · exfalso
        have hmono : lv.getD (i + 1) 0 ≤ lv.getD k 0 :=
          sorted_getD_le h (by omega) (by omega)
        exact absurd (le_trans hmono hcond.1) (not_le.mpr hnpi1)
    · rw [if_neg hcond] at hkv
      exact absurd (Option.some.inj hkv) (by simp)

/-- C5 amended theorem, witness at a concrete input: schedule `[0, 10, 20]`
and value `15` — exactly one interior bin (the one for level `10`) retains
it. -/
theorem interior_bins_partition_from_second_level_witness :
    ∃! i, 0 < i ∧ i + 1 < ([0, 10, 20] : List ℚ).length ∧
      (bucket [0, 10, 20] i ([some 15] : List (Option ℚ)))[0]? =
        some (some (15 : ℚ)) :=
  interior_bins_partition_from_second_level [0, 10, 20] (by decide) (by decide)
    ([some 15] : List (Option ℚ)) 0 15 (by decide) (by decide) (by decide)

/-- C6 counterexample: a schedule of 7 levels paired with the notebook's 8
colors does not raise any configuration error — the pass runs to
completion, because the source performs no validation of the threshold
schedule whatsoever. -/
theorem no_config_validation_cex :
    ([0, 10, 20, 30, 40, 50, 60] : List ℚ).length = 7 ∧ colors.length = 8 ∧
    (runPass [0, 10, 20, 30, 40, 50, 60] colors [5]).isSome = true := by
  refine ⟨by decide, by decide, by decide⟩

/-- For a strictly increasing schedule and an in-range index, the checked
loop body never hits an index error and agrees with `bucket`: the last
index takes the maximum branch before `levels[i+1]` is ever read. -/
theorem bucketChecked_eq_some_of_sorted {lv : List ℚ} (h : lv.Pairwise (· < ·))
    {i : ℕ} (hi : i < lv.length) (t : List (Option ℚ)) :
    bucketChecked lv i t = some (bucket lv i t) := by
  have hne : lv ≠ [] := by
    intro he
    rw [he] at hi
    simp at hi
  have hget : lv[i]? = some (lv.getD i 0) := by
    rw [List.getElem?_eq_getElem hi, getD_eq_getElem hi]
  simp only [bucketChecked, bucket, hget]
  by_cases hmax : lv.getD i 0 = listMax lv
  · rw [if_pos hmax, if_pos hmax]
  · rw [if_neg hmax, if_neg hmax]
    by_cases hmin : lv.getD i 0 = listMin lv
    · rw [if_pos hmin, if_pos hmin]
    · have hi1 : i + 1 < lv.length := by
        rcases Nat.lt_or_ge (i + 1) lv.length with hlt | hge
        · exact hlt
        · exfalso
          apply hmax
          have hieq : i = lv.length - 1 := by omega
          rw [listMax_eq_last h hne, hieq]
      have hget1 : lv[i + 1]? = some (lv.getD (i + 1) 0) := by
        rw [List.getElem?_eq_getElem hi1, getD_eq_getElem hi1]
      rw [if_neg hmin, if_neg hmin, hget1, Option.map_some']

/-- The fold of the checked loop body never fails when every index is in
range of the schedule and the color list is at least as long as the
schedule. -/
theorem runPass_foldl_isSome (lv : List ℚ) (cols : List String)
    (h : lv.Pairwise (· < ·)) (hlen : lv.length ≤ cols.length)
    (t : List (Option ℚ)) :
    ∀ (idxs : List ℕ), (∀ i ∈ idxs, i < lv.length) →
      ∀ (bins : List (List (Option ℚ) × String)),
      ((idxs.foldl
        (fun acc i =>
          acc.bind fun bins =>
            (bucketChecked lv i t).bind fun sub =>
              cols[i]?.map fun col => bins ++ [(sub, col)])
        (some bins)).isSome = true)
  | [], _, _ => rfl
  | i :: is, hmem, bins => by
    have hi : i < lv.length := hmem i (List.mem_cons_self i is)
    have hcl : i < cols.length := lt_of_lt_of_le hi hlen
    have hc : cols[i]? = some cols[i] := List.getElem?_eq_getElem hcl
    have hstep :
        ((some bins).bind fun bins =>
          (bucketChecked lv i t).bind fun sub =>
            cols[i]?.map fun col => bins ++ [(sub, col)]) =
          some (bins ++ [(bucket lv i t, cols[i])]) := by
      simp [bucketChecked_eq_some_of_sorted h hi, hc]
    rw [List.foldl_cons, hstep]
    exact runPass_foldl_isSome lv cols h hlen t is
      (fun k hk => hmem k (List.mem_cons_of_mem i hk)) _

/-- C6 amended: the code performs no fail-fast validation of the threshold
schedule.  For every strictly increasing schedule and any color list at
least as long as it — including 7 levels with 8 colors — the whole pass
completes without raising; no configuration error exists in the source.
(An error can only arise implicitly, as an index error inside the loop,
when the color list is shorter than the schedule.) -/
theorem no_fail_fast_validation (lv : List ℚ) (cols : List String)
    (h : lv.Pairwise (· < ·)) (hlen : lv.length ≤ cols.length) (raw : List ℚ) :
    (runPass lv cols raw).isSome = true := by
  simp only [runPass]
  exact runPass_foldl_isSome lv cols h hlen (convert raw)
    (List.range lv.length) (fun i hi => List.mem_range.mp hi) []

/-- C6 amended theorem, witness at the concrete input of the claim: 7
levels, the 8 notebook colors. -/
theorem no_fail_fast_validation_witness :
    (runPass [0, 10, 20, 30, 40, 50, 60] colors [5]).isSome = true :=
  no_fail_fast_validation [0, 10, 20, 30, 40, 50, 60] colors (by decide)
    (by decide) [5]

/-- The loop only ever appends to `bins`: folding `passStep` over any index
list leaves `tair`, `lats` and `lons` untouched, and every appended bin is
computed from the original `tair`. -/
theorem foldl_passStep_spec (lv : List ℚ) (cols : List String) :
    ∀ (idxs : List ℕ) (s : PassState),
      idxs.foldl (passStep lv cols) s =
        { s with bins :=
            s.bins ++ idxs.map fun i => (bucket lv i s.tair, cols.getD i "") }
  | [], s => by simp
  | i :: is, s => by
    rw [List.foldl_cons, foldl_passStep_spec lv cols is]
    simp [passStep]

/-- C9: during one classification pass the converted measurement array, the
latitude array and the longitude array are not mutated by any bucketing
step; after producing all bins the source arrays are unchanged, and every
bin is a fresh array derived from the original converted array (never
aliased back into it). -/
theorem classification_pass_preserves_sources (lv : List ℚ) (cols : List String)
    (s : PassState) :
    (runPassState lv cols s).tair = s.tair ∧
    (runPassState lv cols s).lats = s.lats ∧
    (runPassState lv cols s).lons = s.lons ∧
    (runPassState lv cols s).bins =
      s.bins ++ (List.range lv.length).map
        fun i => (bucket lv i s.tair, cols.getD i "") := by
  rw [runPassState, foldl_passStep_spec]
  exact ⟨rfl, rfl, rfl, rfl⟩

end SurfaceObs
